import Mathlib

/-!
Shallow embedding of the Synacor-challenge virtual machine (`vm.go`) and of
its program-image loader, together with theorems checking the repository's
natural-language specification against the code.

Machine words are modelled as `Nat` with explicit reductions modulo `2^16`
(the Go code stores words in `uint16`).  Go panics are modelled explicitly:
`Panic.str` is a panic carrying a string (raised by `assertf`/`panicf`);
these are recovered by `run`'s deferred handler and turned into an error.
`Panic.rt` is a Go *runtime* panic (index out of range, integer division by
zero, close of a closed channel); the deferred handler's type assertion
`r.(string)` fails on those, so the process crashes and `vm.out` is never
closed.  The distinction is kept in the `Outcome` of a run.
-/

namespace SynacorVM

/-- Number of words in VM memory (`msize` in vm.go). -/
def msize : Nat := 32768

/-- Number of registers (`nregs` in vm.go). -/
def nregs : Nat := 8

/-- Maximum 15-bit value (`vmax` in vm.go). -/
def vmax : Nat := 32767

/-- Modulus for value arithmetic (`vmod` in vm.go). -/
def vmod : Nat := 32768

/-- First raw word denoting a register (`vreg` in vm.go). -/
def vreg : Nat := 32768

/-- Modulus of the `uint16` machine-word type. -/
def wsize : Nat := 65536

/-- Go runtime panics that can be raised while the VM runs.  These are not
string panics: the recover handler in `run` cannot convert them and the
process crashes. -/
inductive RtErr where
  | divByZero
  | indexOOB (i : Nat)
  | closeClosed
deriving DecidableEq

/-- A Go panic: either a string panic from `assertf`/`panicf` (recovered by
`run` into an error) or a runtime panic (not recoverable by `run`'s
handler). -/
inductive Panic where
  | str (msg : String)
  | rt (e : RtErr)
deriving DecidableEq

/-- The VM execution state plus the observable channel contents.  `mem` and
`reg` hold `uint16` words (callers maintain `< wsize`); `stack` lists the
Go stack with its top element first; `quitClosed` says whether the
`vm.quit` channel has been closed; `input` is the sequence of bytes still
pending on `vm.in`; `output` is the sequence of bytes sent to `vm.out` so
far. -/
structure Config where
  mem : Nat → Nat
  reg : Nat → Nat
  stack : List Nat
  ip : Nat
  quitClosed : Bool
  input : List Nat
  output : List Nat

/-- Read of `vm.mem[i]` with `i : uint16`: Go's bounds check panics with an
index-out-of-range runtime error when `i ≥ msize`. -/
def memRead (c : Config) (i : Nat) : Except Panic Nat :=
  if i < msize then .ok (c.mem i) else .error (.rt (.indexOOB i))

/-- Write `vm.mem[i] = v` with the same bounds check as `memRead`. -/
def memWrite (c : Config) (i v : Nat) : Except Panic Config :=
  if i < msize then
    .ok { c with mem := fun j => if j = i then v else c.mem j }
  else .error (.rt (.indexOOB i))

/-- Message of the `assertf(arg > 0, ...)` panic in `get`/`set`. -/
def invalidArgMsg (arg : Nat) : String := s!"invalid arg {arg}"

/-- Message of the `assertf(av < vreg+nregs, ...)` panic in `get`. -/
def badValueMsg (av addr : Nat) : String := s!"bad value {av} at {addr}"

/-- Message of the register-reference assertion panic in `set`. -/
def badRegMsg (av addr : Nat) : String := s!"bad register ref {av} at {addr}"

/-- Message of the invalid-opcode panic in `run`'s default case. -/
def invalidOpMsg (op addr : Nat) : String := s!"invalid op {op} at {addr}"

/-- Address of the raw word of the 1-indexed operand `arg` of the current
instruction: `ip + arg` as a `uint16` addition. -/
def opAddr (c : Config) (arg : Nat) : Nat := (c.ip + arg) % wsize

/-- The instruction-size bookkeeping `sz = cond(arg+1 > sz, arg+1, sz)`
shared by `get` and `set`. -/
def newSz (sz arg : Nat) : Nat := if sz < arg + 1 then arg + 1 else sz

/-- The `get` closure of `run` (vm.go lines 79-93).  `sz` is the current
recorded instruction size; the call returns the resolved value together
with the updated size `cond(arg+1 > sz, arg+1, sz)`.  The raw operand word
is read at `ip + arg` (a `uint16` addition). -/
def getF (c : Config) (sz arg : Nat) : Except Panic (Nat × Nat) :=
  if arg = 0 then .error (.str (invalidArgMsg arg))
  else
    match memRead c (opAddr c arg) with
    | .error p => .error p
    | .ok av =>
      if av ≤ vmax then .ok (av, newSz sz arg)
      else if av < vreg + nregs then .ok (c.reg (av - vreg), newSz sz arg)
      else .error (.str (badValueMsg av (opAddr c arg)))

/-- The `set` closure of `run` (vm.go lines 97-104): writes `v` into the
register referenced by the raw operand word; that word must lie in
`[vreg, vreg + nregs)`. -/
def setF (c : Config) (sz arg v : Nat) : Except Panic (Config × Nat) :=
  if arg = 0 then .error (.str (invalidArgMsg arg))
  else
    match memRead c (opAddr c arg) with
    | .error p => .error p
    | .ok av =>
      if vreg ≤ av ∧ av < vreg + nregs then
        .ok ({ c with reg := fun j => if j = av - vreg then v else c.reg j }, newSz sz arg)
      else .error (.str (badRegMsg av (opAddr c arg)))

/-- The `pop` closure of `run` (vm.go lines 107-112): panics with a string
on an empty stack, otherwise returns the top of the stack and the rest. -/
def popF (stack : List Nat) : Except Panic (Nat × List Nat) :=
  match stack with
  | [] => .error (.str "pop with empty stack")
  | v :: rest => .ok (v, rest)

/-- Go's `close` on a channel whose closed-state is `closed`: closing an
already-closed channel raises a runtime panic (modelled as `none`). -/
def closeChan (closed : Bool) : Option Bool :=
  if closed then none else some true

/-- The `halt` method (vm.go lines 62-64): `close(vm.quit)`.  Returns
`none` when the close panics (channel already closed). -/
def haltVM (c : Config) : Option Config :=
  match closeChan c.quitClosed with
  | none => none
  | some _ => some { c with quitClosed := true }

/-- Result of one iteration of `run`'s loop. -/
inductive StepRes where
  | next (c : Config)
  | done (c : Config)
  | blocked (c : Config)
  | panic (p : Panic) (c : Config)

/-- Opcode dispatch, the `switch op` of `run` (vm.go lines 125-189),
together with the final `ip += sz` advance of the loop (a `uint16`
addition).  Each case mirrors the Go evaluation order of its `get`/`set`
calls and the instruction-size bookkeeping they perform.  `o` resolves the
`select` choice of opcode 20 when both a byte and a closed quit channel
are ready. -/
def dispatch (o : Bool) (c : Config) (op : Nat) : StepRes :=
  if op = 0 then
    match closeChan c.quitClosed with
    | none => .panic (.rt .closeClosed) c
    | some _ => .next { c with quitClosed := true, ip := (c.ip + 1) % wsize }
  else if op = 1 then
    match getF c 1 2 with
    | .error p => .panic p c
    | .ok (b, sz) =>
      match setF c sz 1 b with
      | .error p => .panic p c
      | .ok (c', sz') => .next { c' with ip := (c.ip + sz') % wsize }
  else if op = 2 then
    match getF c 1 1 with
    | .error p => .panic p c
    | .ok (a, sz) => .next { c with stack := a :: c.stack, ip := (c.ip + sz) % wsize }
  else if op = 3 then
    match popF c.stack with
    | .error p => .panic p c
    | .ok (v, st) =>
      match setF { c with stack := st } 1 1 v with
      | .error p => .panic p { c with stack := st }
      | .ok (c', sz') => .next { c' with ip := (c.ip + sz') % wsize }
  else if op = 4 then
    match getF c 1 2 with
    | .error p => .panic p c
    | .ok (b, sz2) =>
      match getF c sz2 3 with
      | .error p => .panic p c
      | .ok (d, sz3) =>
        match setF c sz3 1 (if b = d then 1 else 0) with
        | .error p => .panic p c
        | .ok (c', sz') => .next { c' with ip := (c.ip + sz') % wsize }
  else if op = 5 then
    match getF c 1 2 with
    | .error p => .panic p c
    | .ok (b, sz2) =>
      match getF c sz2 3 with
      | .error p => .panic p c
      | .ok (d, sz3) =>
        match setF c sz3 1 (if d < b then 1 else 0) with
        | .error p => .panic p c
        | .ok (c', sz') => .next { c' with ip := (c.ip + sz') % wsize }
  else if op = 6 then
    match getF c 1 1 with
    | .error p => .panic p c
    | .ok (a, _) => .next { c with ip := a % wsize }
  else if op = 7 then
    match getF c 1 2 with
    | .error p => .panic p c
    | .ok (addr, sz2) =>
      match getF c sz2 1 with
      | .error p => .panic p c
      | .ok (a, sz1) =>
        if a ≠ 0 then .next { c with ip := addr % wsize }
        else .next { c with ip := (c.ip + sz1) % wsize }
  else if op = 8 then
    match getF c 1 2 with
    | .error p => .panic p c
    | .ok (addr, sz2) =>
      match getF c sz2 1 with
      | .error p => .panic p c
      | .ok (a, sz1) =>
        if a = 0 then .next { c with ip := addr % wsize }
        else .next { c with ip := (c.ip + sz1) % wsize }
  else if op = 9 then
    match getF c 1 2 with
    | .error p => .panic p c
    | .ok (b, sz2) =>
      match getF c sz2 3 with
      | .error p => .panic p c
      | .ok (d, sz3) =>
        match setF c sz3 1 ((b + d) % wsize % vmod) with
        | .error p => .panic p c
        | .ok (c', sz') => .next { c' with ip := (c.ip + sz') % wsize }
  else if op = 10 then
    match getF c 1 2 with
    | .error p => .panic p c
    | .ok (b, sz2) =>
      match getF c sz2 3 with
      | .error p => .panic p c
      | .ok (d, sz3) =>
        match setF c sz3 1 (b * d % vmod) with
        | .error p => .panic p c
        | .ok (c', sz') => .next { c' with ip := (c.ip + sz') % wsize }
  else if op = 11 then
    match getF c 1 2 with
    | .error p => .panic p c
    | .ok (b, sz2) =>
      match getF c sz2 3 with
      | .error p => .panic p c
      | .ok (d, sz3) =>
        if d = 0 then .panic (.rt .divByZero) c
        else
          match setF c sz3 1 (b % d) with
          | .error p => .panic p c
          | .ok (c', sz') => .next { c' with ip := (c.ip + sz') % wsize }
  else if op = 12 then
    match getF c 1 2 with
    | .error p => .panic p c
    | .ok (b, sz2) =>
      match getF c sz2 3 with
      | .error p => .panic p c
      | .ok (d, sz3) =>
        match setF c sz3 1 (Nat.land b d) with
        | .error p => .panic p c
        | .ok (c', sz') => .next { c' with ip := (c.ip + sz') % wsize }
  else if op = 13 then
    match getF c 1 2 with
    | .error p => .panic p c
    | .ok (b, sz2) =>
      match getF c sz2 3 with
      | .error p => .panic p c
      | .ok (d, sz3) =>
        match setF c sz3 1 (Nat.lor b d) with
        | .error p => .panic p c
        | .ok (c', sz') => .next { c' with ip := (c.ip + sz') % wsize }
  else if op = 14 then
    match getF c 1 2 with
    | .error p => .panic p c
    | .ok (b, sz2) =>
      match setF c sz2 1 (Nat.land (Nat.xor b 65535) vmax) with
      | .error p => .panic p c
      | .ok (c', sz') => .next { c' with ip := (c.ip + sz') % wsize }
  else if op = 15 then
    match getF c 1 2 with
    | .error p => .panic p c
    | .ok (b, sz2) =>
      match memRead c b with
      | .error p => .panic p c
      | .ok mv =>
        match setF c sz2 1 mv with
        | .error p => .panic p c
        | .ok (c', sz') => .next { c' with ip := (c.ip + sz') % wsize }
  else if op = 16 then
    match getF c 1 1 with
    | .error p => .panic p c
    | .ok (a, sz1) =>
      match getF c sz1 2 with
      | .error p => .panic p c
      | .ok (b, sz2) =>
        match memWrite c a b with
        | .error p => .panic p c
        | .ok c' => .next { c' with ip := (c.ip + sz2) % wsize }
  else if op = 17 then
    match getF c 1 1 with
    | .error p => .panic p c
    | .ok (a, sz1) =>
      .next { c with stack := ((c.ip + sz1) % wsize) :: c.stack, ip := a % wsize }
  else if op = 18 then
    match popF c.stack with
    | .error p => .panic p c
    | .ok (v, st) => .next { c with stack := st, ip := v % wsize }
  else if op = 19 then
    match getF c 1 1 with
    | .error p => .panic p c
    | .ok (a, sz1) =>
      .next { c with output := c.output ++ [a % 256], ip := (c.ip + sz1) % wsize }
  else if op = 20 then
    match c.input with
    | [] => if c.quitClosed then .done c else .blocked c
    | v :: rest =>
      if c.quitClosed && o then .done c
      else
        match setF { c with input := rest } 1 1 v with
        | .error p => .panic p { c with input := rest }
        | .ok (c', sz') => .next { c' with ip := (c.ip + sz') % wsize }
  else if op = 21 then
    .next { c with ip := (c.ip + 1) % wsize }
  else
    .panic (.str (invalidOpMsg op c.ip)) c

/-- One iteration of `run`'s `for` loop (vm.go lines 114-192): the
quit-channel check at the top, the opcode fetch at `ip`, and the dispatch
(which includes the final `ip += sz`). -/
def step (o : Bool) (c : Config) : StepRes :=
  if c.quitClosed then .done c
  else
    match memRead c c.ip with
    | .error p => .panic p c
    | .ok op => dispatch o c op

/-- Observable outcome of a run: `halted` is a normal return (`err = nil`,
`vm.out` closed); `faulted` is a string panic recovered into an error
(`vm.out` closed); `crashed` is a runtime panic that the recover handler's
`r.(string)` type assertion fails on, crashing the process with `vm.out`
left open; `blocked` is an `in` instruction waiting forever for a byte;
`timeout` means the step budget of the model ran out. -/
inductive Outcome where
  | halted (out : List Nat)
  | faulted (msg : String) (out : List Nat)
  | crashed (e : RtErr) (out : List Nat)
  | blocked (out : List Nat)
  | timeout
deriving DecidableEq

/-- Fuelled execution of `run`'s loop.  `o` supplies the `select` choice of
opcode 20, indexed by the remaining fuel. -/
def run (o : Nat → Bool) : Nat → Config → Outcome
  | 0, _ => .timeout
  | fuel + 1, c =>
    match step (o fuel) c with
    | .done c' => .halted c'.output
    | .blocked c' => .blocked c'.output
    | .panic (.str m) c' => .faulted m c'.output
    | .panic (.rt e) c' => .crashed e c'.output
    | .next c' => run o fuel c'

/-- Memory function built from a program-image word list: word `i` at
address `i`, zero beyond the image. -/
def memOfList (l : List Nat) : Nat → Nat := fun i => l.getD i 0

/-- Initial configuration for a freshly constructed VM running a program
image `prog` with pending input bytes `input`: `ip = 0`, all registers
zero, empty stack, quit channel open, nothing output yet. -/
def initConfig (prog : List Nat) (input : List Nat) : Config :=
  { mem := memOfList prog
    reg := fun _ => 0
    stack := []
    ip := 0
    quitClosed := false
    input := input
    output := [] }

/-- Result of `newVM` (vm.go lines 30-46) on a byte source: a memory image
on success, an I/O error when `binary.Read` fails with something other
than a clean EOF, or an index-out-of-range panic when the read loop
evaluates `&vm.mem[nr]` with `nr = msize`. -/
inductive LoadRes where
  | ok (mem : Nat → Nat)
  | ioErr
  | panicOOB

/-- The read loop of `newVM`: each iteration first evaluates `&vm.mem[nr]`
(whose bounds check panics when `msize ≤ nr`), then `binary.Read` consumes
two bytes little-endian, returns a clean EOF on an empty source, and an
`io.ErrUnexpectedEOF` (an I/O error) when only one byte remains. -/
def loadLoop : Nat → (Nat → Nat) → List Nat → LoadRes
  | nr, mem, bytes =>
    if msize ≤ nr then .panicOOB
    else
      match bytes with
      | [] => .ok mem
      | [_] => .ioErr
      | b0 :: b1 :: rest =>
        loadLoop (nr + 1) (fun i => if i = nr then b0 + 256 * b1 else mem i) rest

/-- `newVM`'s decoding of a byte source into VM memory, starting with
all-zero memory. -/
def newVMLoad (bytes : List Nat) : LoadRes := loadLoop 0 (fun _ => 0) bytes

/-- The word decoded from bytes `2k` and `2k+1` of a little-endian byte
stream. -/
def pairAt (bytes : List Nat) (k : Nat) : Nat :=
  bytes.getD (2 * k) 0 + 256 * bytes.getD (2 * k + 1) 0

/-- Projection of the instruction pointer out of a successful (non-halting,
non-panicking) step. -/
def stepIp : StepRes → Option Nat
  | .next c => some c.ip
  | _ => none

/-! ## Helper lemmas -/

/-- The dispatch consults the `select` choice only in the opcode-20 branch,
and only when the quit channel is closed; with the channel open it is
independent of the choice. -/
theorem dispatch_oracle_irrel (o₁ o₂ : Bool) (c : Config) (op : Nat)
    (hq : c.quitClosed = false) : dispatch o₁ c op = dispatch o₂ c op := by
  unfold dispatch
  simp only [hq, Bool.false_and]

/-- A single loop iteration is independent of the `select` choice: the
quit check at the top of the loop means the quit channel is open whenever
opcode 20 runs its `select`. -/
theorem step_oracle_irrel (o₁ o₂ : Bool) (c : Config) :
    step o₁ c = step o₂ c := by
  unfold step
  by_cases hq : c.quitClosed
  · simp [hq]
  · simp only [hq]
    cases memRead c c.ip with
    | error p => rfl
    | ok op => exact dispatch_oracle_irrel o₁ o₂ c op (by simpa using hq)

/-- Once a run reaches a normal halt, extra fuel does not change the
outcome. -/
theorem run_halted_succ (o : Nat → Bool) :
    ∀ (n : Nat) (c : Config) (out : List Nat),
      run o n c = .halted out → run o (n + 1) c = .halted out := by
  intro n
  induction n with
  | zero => intro c out h; exact absurd h (by simp [run])
  | succ n ih =>
    intro c out h
    simp only [run] at h ⊢
    rw [step_oracle_irrel (o (n + 1)) (o n) c]
    cases hst : step (o n) c with
    | next c' =>
      rw [hst] at h
      exact ih c' out h
    | done c' => rw [hst] at h; exact h
    | blocked c' => rw [hst] at h; exact h
    | panic p c' => rw [hst] at h; cases p <;> simp_all

/-- Inversion of a successful `uint16`-indexed memory read. -/
theorem memRead_ok_elim (c : Config) (i v : Nat) (h : memRead c i = .ok v) :
    v = c.mem i ∧ i < msize := by
  unfold memRead at h
  by_cases hi : i < msize
  · rw [if_pos hi] at h
    injection h with h'
    exact ⟨h'.symm, hi⟩
  · rw [if_neg hi] at h
    simp at h

/-- Inversion of a failed memory read: the only failure is the bounds-check runtime panic at the read index. -/
theorem memRead_err_elim (c : Config) (i : Nat) (p : Panic) (h : memRead c i = .error p) :
    p = .rt (.indexOOB i) ∧ msize ≤ i := by
  unfold memRead at h
  by_cases hi : i < msize
  · rw [if_pos hi] at h
    simp at h
  · rw [if_neg hi] at h
    injection h with h'
    exact ⟨h'.symm, by omega⟩

/-- Inversion of a successful memory write. -/
theorem memWrite_ok_elim (c : Config) (i v : Nat) (c' : Config)
    (h : memWrite c i v = .ok c') :
    c' = { c with mem := fun j => if j = i then v else c.mem j } ∧ i < msize := by
  unfold memWrite at h
  by_cases hi : i < msize
  · rw [if_pos hi] at h
    injection h with h'
    exact ⟨h'.symm, hi⟩
  · rw [if_neg hi] at h
    simp at h

/-- Inversion of a failed memory write: the only failure is the bounds-check runtime panic at the write index. -/
theorem memWrite_err_elim (c : Config) (i v : Nat) (p : Panic)
    (h : memWrite c i v = .error p) :
    p = .rt (.indexOOB i) ∧ msize ≤ i := by
  unfold memWrite at h
  by_cases hi : i < msize
  · rw [if_pos hi] at h
    simp at h
  · rw [if_neg hi] at h
    injection h with h'
    exact ⟨h'.symm, by omega⟩

/-- Inversion of a successful `get`: the operand address was in bounds and the value is either the literal raw word or the contents of one of the eight registers. -/
theorem getF_ok_elim (c : Config) (sz arg v s : Nat) (h : getF c sz arg = .ok (v, s)) :
    arg ≠ 0 ∧ s = newSz sz arg ∧ opAddr c arg < msize ∧
    ((v = c.mem (opAddr c arg) ∧ v ≤ vmax) ∨ (∃ r, r < nregs ∧ v = c.reg r)) := by
  unfold getF at h
  by_cases harg : arg = 0
  · rw [if_pos harg] at h
    simp at h
  · rw [if_neg harg] at h
    cases hmr : memRead c (opAddr c arg) with
    | error p => rw [hmr] at h; simp at h
    | ok av =>
      rw [hmr] at h
      dsimp only at h
      obtain ⟨hav, hlt⟩ := memRead_ok_elim _ _ _ hmr
      by_cases h1 : av ≤ vmax
      · rw [if_pos h1] at h
        simp only [Except.ok.injEq, Prod.mk.injEq] at h
        exact ⟨harg, h.2.symm, hlt, Or.inl ⟨by rw [← h.1, hav], by omega⟩⟩
      · rw [if_neg h1] at h
        by_cases h2 : av < vreg + nregs
        · rw [if_pos h2] at h
          simp only [Except.ok.injEq, Prod.mk.injEq] at h
          refine ⟨harg, h.2.symm, hlt, Or.inr ⟨av - vreg, ?_, h.1.symm⟩⟩
          have hge : vreg ≤ av := by
            simp only [vmax] at h1; simp only [vreg]; omega
          omega
        · rw [if_neg h2] at h
          simp at h

/-- Inversion of a `get` that raised a runtime (non-string) panic: the only runtime panic in `get` is the bounds check of the operand read at `ip + arg`. -/
theorem getF_err_rt_elim (c : Config) (sz arg : Nat) (e : RtErr)
    (h : getF c sz arg = .error (.rt e)) :
    e = .indexOOB (opAddr c arg) ∧ msize ≤ opAddr c arg := by
  unfold getF at h
  by_cases harg : arg = 0
  · rw [if_pos harg] at h
    simp at h
  · rw [if_neg harg] at h
    cases hmr : memRead c (opAddr c arg) with
    | error p =>
      rw [hmr] at h
      dsimp only at h
      obtain ⟨hp, hge⟩ := memRead_err_elim _ _ _ hmr
      subst hp
      injection h with h'
      injection h' with h''
      exact ⟨h''.symm, hge⟩
    | ok av =>
      rw [hmr] at h
      dsimp only at h
      by_cases h1 : av ≤ vmax
      · rw [if_pos h1] at h; simp at h
      · rw [if_neg h1] at h
        by_cases h2 : av < vreg + nregs
        · rw [if_pos h2] at h; simp at h
        · rw [if_neg h2] at h; simp at h

/-- Inversion of a successful `set`: the operand address was in bounds, the raw word there references a register, and exactly that register is updated. -/
theorem setF_ok_elim (c : Config) (sz arg v : Nat) (c' : Config) (s' : Nat)
    (h : setF c sz arg v = .ok (c', s')) :
    arg ≠ 0 ∧ s' = newSz sz arg ∧ opAddr c arg < msize ∧
    vreg ≤ c.mem (opAddr c arg) ∧ c.mem (opAddr c arg) < vreg + nregs ∧
    c' = { c with
           reg := fun j => if j = c.mem (opAddr c arg) - vreg then v else c.reg j } := by
  unfold setF at h
  by_cases harg : arg = 0
  · rw [if_pos harg] at h
    simp at h
  · rw [if_neg harg] at h
    cases hmr : memRead c (opAddr c arg) with
    | error p => rw [hmr] at h; simp at h
    | ok av =>
      rw [hmr] at h
      dsimp only at h
      obtain ⟨hav, hlt⟩ := memRead_ok_elim _ _ _ hmr
      subst hav
      by_cases hreg : vreg ≤ c.mem (opAddr c arg) ∧ c.mem (opAddr c arg) < vreg + nregs
      · rw [if_pos hreg] at h
        simp only [Except.ok.injEq, Prod.mk.injEq] at h
        exact ⟨harg, h.2.symm, hlt, hreg.1, hreg.2, h.1.symm⟩
      · rw [if_neg hreg] at h
        simp at h

/-- Inversion of a `set` that raised a runtime (non-string) panic: the only runtime panic in `set` is the bounds check of the operand read. -/
theorem setF_err_rt_elim (c : Config) (sz arg v : Nat) (e : RtErr)
    (h : setF c sz arg v = .error (.rt e)) :
    e = .indexOOB (opAddr c arg) ∧ msize ≤ opAddr c arg := by
  unfold setF at h
  by_cases harg : arg = 0
  · rw [if_pos harg] at h
    simp at h
  · rw [if_neg harg] at h
    cases hmr : memRead c (opAddr c arg) with
    | error p =>
      rw [hmr] at h
      dsimp only at h
      obtain ⟨hp, hge⟩ := memRead_err_elim _ _ _ hmr
      subst hp
      injection h with h'
      injection h' with h''
      exact ⟨h''.symm, hge⟩
    | ok av =>
      rw [hmr] at h
      dsimp only at h
      by_cases hreg : vreg ≤ av ∧ av < vreg + nregs
      · rw [if_pos hreg] at h; simp at h
      · rw [if_neg hreg] at h; simp at h

/-- With `uint16`-valued memory and registers, `get` returns a `uint16` value. -/
theorem getF_ok_lt (c : Config) (sz arg v s : Nat)
    (hm : ∀ k, c.mem k < wsize) (hr : ∀ j, c.reg j < wsize)
    (h : getF c sz arg = .ok (v, s)) : v < wsize := by
  obtain ⟨-, -, -, hv⟩ := getF_ok_elim _ _ _ _ _ h
  rcases hv with ⟨hv, -⟩ | ⟨r, -, hv⟩
  · rw [hv]; exact hm _
  · rw [hv]; exact hr _

/-! ## Claim theorems -/

/-- Claim C9: the engine is deterministic.  For a fixed program image and a
fixed pending input sequence, with cancellation never requested, the
outcome of a run — outbound byte sequence and completion result alike — is
independent of how the runtime resolves the `select` in the `in` opcode
(the only source of scheduling nondeterminism inside the loop), for every
fuel bound and every starting configuration. -/
theorem c9_deterministic (o₁ o₂ : Nat → Bool) :
    ∀ (fuel : Nat) (c : Config), run o₁ fuel c = run o₂ fuel c := by
  intro fuel
  induction fuel with
  | zero => intro c; rfl
  | succ n ih =>
    intro c
    simp only [run]
    rw [step_oracle_irrel (o₁ n) (o₂ n) c]
    cases hst : step (o₂ n) c with
    | next c' => exact ih c'
    | done c' => rfl
    | blocked c' => rfl
    | panic p c' => cases p <;> rfl

/-- Claim C7: running the VM on program memory
`[9, 32768, 32769, 4, 19, 32768, 0]` with registers 0 and 1 both zero
writes exactly the single byte 4 to the outbound channel and then
terminates as a normal halt, for every fuel bound large enough for the
four loop iterations the program needs. -/
theorem c7_output_scenario :
    ∀ (k : Nat),
      run (fun _ => false) (4 + k)
        (initConfig [9, 32768, 32769, 4, 19, 32768, 0] []) = .halted [4] := by
  intro k
  induction k with
  | zero => decide
  | succ k ih => exact run_halted_succ _ _ _ _ ih

/-- Claim C1 (divergence witness): executing `ret` (opcode 18) with an
empty stack does not halt normally; `run`'s case 18 calls the `pop`
closure, whose assertion panics with the string "pop with empty stack",
so the run ends as a recovered fault carrying that error — contradicting
both the spec and the code's own comment "empty stack = halt". -/
theorem c1_ret_empty_stack_faults :
    run (fun _ => false) 2 (initConfig [18] []) =
      .faulted "pop with empty stack" [] := by decide

/-- Claim C2 (divergence witness): executing `mod` (opcode 11) with
divisor 0 evaluates `get(2) % get(3)` with `get(3) = 0`, a Go runtime
integer-divide-by-zero panic.  This is not a string panic, so the recover
handler's `r.(string)` type assertion fails and the process crashes with
`vm.out` never closed — no descriptive division error is delivered via the
completion result. -/
theorem c2_mod_zero_crashes :
    run (fun _ => false) 2 (initConfig [11, 32768, 5, 0] []) =
      .crashed .divByZero [] := by decide

/-- Claim C3 (counterexample): a first cancellation request on a fresh run
succeeds, but a second request after it panics — `halt` is
`close(vm.quit)`, and Go's `close` on an already-closed channel panics, so
a second request is not the no-op the claim asserts. -/
theorem c3_counterexample_second_halt_panics :
    (haltVM (initConfig [] [])).isSome = true ∧
    ((haltVM (initConfig [] [])).bind haltVM) = none := ⟨rfl, rfl⟩

/-- Claim C3 (amended): a first cancellation request on a run whose quit
channel is still open raises the signal; the signal stays raised (the
engine observes it at the top of every iteration and terminates, never
resetting it); but a second cancellation request panics with a
close-of-closed-channel runtime error instead of having no effect. -/
theorem c3_halt_raises_and_sticks (c : Config) (h : c.quitClosed = false) :
    haltVM c = some { c with quitClosed := true } ∧
    haltVM { c with quitClosed := true } = none ∧
    (∀ o, step o { c with quitClosed := true } = .done { c with quitClosed := true }) := by
  refine ⟨?_, ?_, ?_⟩
  · simp [haltVM, closeChan, h]
  · simp [haltVM, closeChan]
  · intro o; simp [step]

/-- Claim C3 (witness): the amended halt behaviour evaluated on a fresh
configuration. -/
theorem c3_halt_witness :
    (initConfig [] []).quitClosed = false ∧
    haltVM (initConfig [] []) = some { initConfig [] [] with quitClosed := true } :=
  ⟨rfl, (c3_halt_raises_and_sticks (initConfig [] []) rfl).1⟩

/-- Claim C4: the `get` closure satisfies the trichotomy.  When the raw
operand word at `ip + arg` is at most 32767 it is returned unchanged; when
it lies in `[32768, 32775]` the contents of register `raw - 32768` are
returned; when it is 32776 or more, `get` fails with the string panic
"bad value (value) at (address)" identifying the offending address and
value. -/
theorem c4_get_trichotomy (c : Config) (sz arg addr av : Nat)
    (h1 : 1 ≤ arg) (ha : addr = opAddr c arg) (hm : addr < msize)
    (hav : c.mem addr = av) :
    (av ≤ vmax → getF c sz arg = .ok (av, newSz sz arg)) ∧
    (vreg ≤ av → av < vreg + nregs →
      getF c sz arg = .ok (c.reg (av - vreg), newSz sz arg)) ∧
    (vreg + nregs ≤ av →
      getF c sz arg = .error (.str (badValueMsg av addr))) := by
  have harg : ¬ arg = 0 := by omega
  subst ha
  subst hav
  refine ⟨?_, ?_, ?_⟩
  · intro hle
    simp [getF, memRead, harg, hm, hle]
  · intro hge hlt
    have hnle : ¬ (c.mem (opAddr c arg) ≤ vmax) := by
      simp only [vreg] at hge; simp only [vmax]; omega
    simp [getF, memRead, harg, hm, hnle, hlt]
  · intro hge
    have hnle : ¬ (c.mem (opAddr c arg) ≤ vmax) := by
      simp only [vreg, nregs] at hge; simp only [vmax]; omega
    have hnlt : ¬ (c.mem (opAddr c arg) < vreg + nregs) := by omega
    simp [getF, memRead, harg, hm, hnle, hnlt]

/-- Reading `2 * m` further bytes starting at word index `nr` hits the
out-of-range evaluation of `&vm.mem[nr]` whenever `nr + m` reaches
`msize`: the loop evaluates the index expression before `binary.Read` can
report a clean EOF. -/
theorem loadLoop_replicate_panics :
    ∀ (m nr : Nat) (mem : Nat → Nat) (b : Nat), msize ≤ nr + m →
      loadLoop nr mem (List.replicate (2 * m) b) = .panicOOB := by
  intro m
  induction m with
  | zero =>
    intro nr mem b h
    unfold loadLoop
    rw [if_pos (by omega)]
  | succ m ih =>
    intro nr mem b h
    by_cases hnr : msize ≤ nr
    · unfold loadLoop; rw [if_pos hnr]
    · have hrep : List.replicate (2 * (m + 1)) b = b :: b :: List.replicate (2 * m) b := by
        rw [Nat.mul_succ]
        rw [show 2 * m + 2 = (2 * m + 1) + 1 from rfl]
        rw [List.replicate_succ, List.replicate_succ]
      unfold loadLoop
      rw [if_neg hnr, hrep]
      exact ih (nr + 1) _ b (by omega)

/-- Claim C5 (counterexample): a byte source that decodes cleanly as
exactly `n = 32768` little-endian words — the case `n = 32768` allowed by
the claim — does not construct a VM: after reading word 32767 the loop
evaluates `&vm.mem[32768]`, whose bounds check panics before `binary.Read`
can see the clean end-of-input. -/
theorem c5_counterexample_full_image_panics :
    newVMLoad (List.replicate 65536 0) = .panicOOB := by
  have h := loadLoop_replicate_panics 32768 0 (fun _ => 0) 0 (by norm_num [msize])
  rw [show (2 : Nat) * 32768 = 65536 from by norm_num] at h
  exact h

/-- The loader's read loop, run from word index `nr` on an even number of
bytes, fills words `nr` up to `nr + n` with the decoded little-endian
pairs and leaves every other address unchanged, provided the final index
`nr + n` stays strictly below `msize`. -/
theorem loadLoop_even_ok :
    ∀ (n nr : Nat) (mem : Nat → Nat) (bytes : List Nat),
      bytes.length = 2 * n → nr + n < msize →
      ∃ m, loadLoop nr mem bytes = .ok m ∧
        (∀ i, i < nr → m i = mem i) ∧
        (∀ k, k < n → m (nr + k) = pairAt bytes k) ∧
        (∀ i, nr + n ≤ i → m i = mem i) := by
  intro n
  induction n with
  | zero =>
    intro nr mem bytes hlen hlt
    have hb : bytes = [] := List.length_eq_zero.mp (by simpa using hlen)
    subst hb
    refine ⟨mem, ?_, fun i _ => rfl, fun k hk => absurd hk (by omega), fun i _ => rfl⟩
    unfold loadLoop
    rw [if_neg (by omega)]
  | succ n ih =>
    intro nr mem bytes hlen hlt
    cases bytes with
    | nil =>
      exfalso
      simp only [List.length_nil] at hlen
      omega
    | cons b0 t =>
      cases t with
      | nil =>
        exfalso
        simp only [List.length_cons, List.length_nil] at hlen
        omega
      | cons b1 rest =>
        have hr : rest.length = 2 * n := by
          simp only [List.length_cons] at hlen
          omega
        obtain ⟨m, hm, hlow, hmid, hhigh⟩ :=
          ih (nr + 1) (fun i => if i = nr then b0 + 256 * b1 else mem i) rest hr (by omega)
        refine ⟨m, ?_, ?_, ?_, ?_⟩
        · unfold loadLoop
          rw [if_neg (by omega)]
          exact hm
        · intro i hi
          rw [hlow i (by omega)]
          simp [Nat.ne_of_lt hi]
        · intro k hk
          cases k with
          | zero =>
            rw [Nat.add_zero, hlow nr (by omega)]
            simp [pairAt]
          | succ k' =>
            have hmk := hmid k' (by omega)
            have h1 : nr + (k' + 1) = (nr + 1) + k' := by omega
            have h2 : 2 * (k' + 1) = (2 * k' + 1) + 1 := by omega
            have h3 : 2 * (k' + 1) + 1 = ((2 * k' + 1) + 1) + 1 := by omega
            rw [h1, hmk]
            simp only [pairAt, h2, h3, List.getD_cons_succ]
        · intro i hi
          rw [hhigh i (by omega)]
          rw [if_neg (by omega)]

/-- The loader's read loop fails with `io.ErrUnexpectedEOF` — surfaced as
an I/O error — when a lone trailing byte remains, provided the panic
boundary `msize` is not reached first. -/
theorem loadLoop_odd_ioErr :
    ∀ (n nr : Nat) (mem : Nat → Nat) (bytes : List Nat),
      bytes.length = 2 * n + 1 → nr + n < msize →
      loadLoop nr mem bytes = .ioErr := by
  intro n
  induction n with
  | zero =>
    intro nr mem bytes hlen hlt
    cases bytes with
    | nil =>
      exfalso
      simp only [List.length_nil] at hlen
      omega
    | cons b t =>
      cases t with
      | nil =>
        unfold loadLoop
        rw [if_neg (by omega)]
      | cons b1 rest =>
        exfalso
        simp only [List.length_cons] at hlen
        omega
  | succ n ih =>
    intro nr mem bytes hlen hlt
    cases bytes with
    | nil =>
      exfalso
      simp only [List.length_nil] at hlen
      omega
    | cons b0 t =>
      cases t with
      | nil =>
        exfalso
        simp only [List.length_cons, List.length_nil] at hlen
        omega
      | cons b1 rest =>
        have hr : rest.length = 2 * n + 1 := by
          simp only [List.length_cons] at hlen
          omega
        unfold loadLoop
        rw [if_neg (by omega)]
        exact ih (nr + 1) _ rest hr (by omega)

/-- Claim C5 (amended): for every byte source that decodes cleanly as a
sequence of `n < 32768` little-endian 16-bit words, `newVM` succeeds and
yields memory holding the `i`-th decoded word at address `i` for `i < n`
and zero at every address from `n` on; a source whose decoding fails with
a trailing odd byte before the 32768-word boundary fails construction with
an I/O error and no VM.  (The claim's bound `n ≤ 32768` is wrong at
`n = 32768`, where `&vm.mem[32768]` panics; see the counterexample.) -/
theorem c5_load_amended (bytes : List Nat) (n : Nat) :
    (bytes.length = 2 * n → n < msize →
      ∃ m, newVMLoad bytes = .ok m ∧
        (∀ k, k < n → m k = pairAt bytes k) ∧
        (∀ i, n ≤ i → m i = 0)) ∧
    (bytes.length = 2 * n + 1 → n < msize → newVMLoad bytes = .ioErr) := by
  constructor
  · intro hlen hn
    obtain ⟨m, hm, _, hmid, hhigh⟩ := loadLoop_even_ok n 0 (fun _ => 0) bytes hlen (by omega)
    exact ⟨m, hm, fun k hk => by simpa using hmid k hk, fun i hi => hhigh i (by omega)⟩
  · intro hlen hn
    exact loadLoop_odd_ioErr n 0 (fun _ => 0) bytes hlen (by omega)

/-- Claim C5 (witness): the amended loader contract evaluated on the
four-byte source `[1, 0, 2, 1]` (words 1 and 258) and on the three-byte
source `[5, 0, 7]` (one word and a trailing odd byte). -/
theorem c5_load_witness :
    (∃ m, newVMLoad [1, 0, 2, 1] = .ok m ∧ m 0 = 1 ∧ m 1 = 258 ∧ m 5 = 0) ∧
    newVMLoad [5, 0, 7] = .ioErr := by
  constructor
  · obtain ⟨m, hm, hmid, hhigh⟩ := (c5_load_amended [1, 0, 2, 1] 2).1 (by decide) (by decide)
    refine ⟨m, hm, ?_, ?_, ?_⟩
    · have h0 := hmid 0 (by omega)
      simpa [pairAt] using h0
    · have h1 := hmid 1 (by omega)
      simpa [pairAt] using h1
    · exact hhigh 5 (by omega)
  · exact (c5_load_amended [5, 0, 7] 1).2 (by decide) (by decide)

/-- Claim C4 (witness): the three trichotomy branches evaluated on a
concrete configuration whose operand words are the literal 7, the
register reference 32769, and the invalid word 40000. -/
theorem c4_get_witness :
    getF (initConfig [99, 7, 32769, 40000] []) 1 1 = .ok (7, 2) ∧
    getF (initConfig [99, 7, 32769, 40000] []) 1 2 = .ok (0, 3) ∧
    getF (initConfig [99, 7, 32769, 40000] []) 1 3 = .error (.str "bad value 40000 at 3") := by
  refine ⟨?_, ?_, ?_⟩
  · exact (c4_get_trichotomy _ 1 1 1 7 (by omega) (by decide) (by decide) rfl).1 (by decide)
  · exact (c4_get_trichotomy _ 1 2 2 32769 (by omega) (by decide) (by decide) rfl).2.1
      (by decide) (by decide)
  · exact (c4_get_trichotomy _ 1 3 3 40000 (by omega) (by decide) (by decide) rfl).2.2
      (by decide)

/-- Equation of `dispatch` at opcode 0. -/
theorem dispatch_eq0 (o : Bool) (c : Config) :
    dispatch o c 0 =
      match closeChan c.quitClosed with
      | none => .panic (.rt .closeClosed) c
      | some _ => .next { c with quitClosed := true, ip := (c.ip + 1) % wsize } := rfl

/-- Equation of `dispatch` at opcode 1. -/
theorem dispatch_eq1 (o : Bool) (c : Config) :
    dispatch o c 1 =
      match getF c 1 2 with
      | .error p => .panic p c
      | .ok (b, sz) =>
        match setF c sz 1 b with
        | .error p => .panic p c
        | .ok (c', sz') => .next { c' with ip := (c.ip + sz') % wsize } := rfl

/-- Equation of `dispatch` at opcode 2. -/
theorem dispatch_eq2 (o : Bool) (c : Config) :
    dispatch o c 2 =
      match getF c 1 1 with
      | .error p => .panic p c
      | .ok (a, sz) => .next { c with stack := a :: c.stack, ip := (c.ip + sz) % wsize } := rfl

/-- Equation of `dispatch` at opcode 3. -/
theorem dispatch_eq3 (o : Bool) (c : Config) :
    dispatch o c 3 =
      match popF c.stack with
      | .error p => .panic p c
      | .ok (v, st) =>
        match setF { c with stack := st } 1 1 v with
        | .error p => .panic p { c with stack := st }
        | .ok (c', sz') => .next { c' with ip := (c.ip + sz') % wsize } := rfl

/-- Equation of `dispatch` at opcode 4. -/
theorem dispatch_eq4 (o : Bool) (c : Config) :
    dispatch o c 4 =
      match getF c 1 2 with
      | .error p => .panic p c
      | .ok (b, sz2) =>
        match getF c sz2 3 with
        | .error p => .panic p c
        | .ok (d, sz3) =>
          match setF c sz3 1 (if b = d then 1 else 0) with
          | .error p => .panic p c
          | .ok (c', sz') => .next { c' with ip := (c.ip + sz') % wsize } := rfl

/-- Equation of `dispatch` at opcode 5. -/
theorem dispatch_eq5 (o : Bool) (c : Config) :
    dispatch o c 5 =
      match getF c 1 2 with
      | .error p => .panic p c
      | .ok (b, sz2) =>
        match getF c sz2 3 with
        | .error p => .panic p c
        | .ok (d, sz3) =>
          match setF c sz3 1 (if d < b then 1 else 0) with
          | .error p => .panic p c
          | .ok (c', sz') => .next { c' with ip := (c.ip + sz') % wsize } := rfl

/-- Equation of `dispatch` at opcode 6. -/
theorem dispatch_eq6 (o : Bool) (c : Config) :
    dispatch o c 6 =
      match getF c 1 1 with
      | .error p => .panic p c
      | .ok (a, _) => .next { c with ip := a % wsize } := rfl

/-- Equation of `dispatch` at opcode 7. -/
theorem dispatch_eq7 (o : Bool) (c : Config) :
    dispatch o c 7 =
      match getF c 1 2 with
      | .error p => .panic p c
      | .ok (addr, sz2) =>
        match getF c sz2 1 with
        | .error p => .panic p c
        | .ok (a, sz1) =>
          if a ≠ 0 then .next { c with ip := addr % wsize }
          else .next { c with ip := (c.ip + sz1) % wsize } := rfl

/-- Equation of `dispatch` at opcode 8. -/
theorem dispatch_eq8 (o : Bool) (c : Config) :
    dispatch o c 8 =
      match getF c 1 2 with
      | .error p => .panic p c
      | .ok (addr, sz2) =>
        match getF c sz2 1 with
        | .error p => .panic p c
        | .ok (a, sz1) =>
          if a = 0 then .next { c with ip := addr % wsize }
          else .next { c with ip := (c.ip + sz1) % wsize } := rfl

/-- Equation of `dispatch` at opcode 9. -/
theorem dispatch_eq9 (o : Bool) (c : Config) :
    dispatch o c 9 =
      match getF c 1 2 with
      | .error p => .panic p c
      | .ok (b, sz2) =>
        match getF c sz2 3 with
        | .error p => .panic p c
        | .ok (d, sz3) =>
          match setF c sz3 1 ((b + d) % wsize % vmod) with
          | .error p => .panic p c
          | .ok (c', sz') => .next { c' with ip := (c.ip + sz') % wsize } := rfl

/-- Equation of `dispatch` at opcode 10. -/
theorem dispatch_eq10 (o : Bool) (c : Config) :
    dispatch o c 10 =
      match getF c 1 2 with
      | .error p => .panic p c
      | .ok (b, sz2) =>
        match getF c sz2 3 with
        | .error p => .panic p c
        | .ok (d, sz3) =>
          match setF c sz3 1 (b * d % vmod) with
          | .error p => .panic p c
          | .ok (c', sz') => .next { c' with ip := (c.ip + sz') % wsize } := rfl

/-- Equation of `dispatch` at opcode 11. -/
theorem dispatch_eq11 (o : Bool) (c : Config) :
    dispatch o c 11 =
      match getF c 1 2 with
      | .error p => .panic p c
      | .ok (b, sz2) =>
        match getF c sz2 3 with
        | .error p => .panic p c
        | .ok (d, sz3) =>
          if d = 0 then .panic (.rt .divByZero) c
          else
            match setF c sz3 1 (b % d) with
            | .error p => .panic p c
            | .ok (c', sz') => .next { c' with ip := (c.ip + sz') % wsize } := rfl

/-- Equation of `dispatch` at opcode 12. -/
theorem dispatch_eq12 (o : Bool) (c : Config) :
    dispatch o c 12 =
      match getF c 1 2 with
      | .error p => .panic p c
      | .ok (b, sz2) =>
        match getF c sz2 3 with
        | .error p => .panic p c
        | .ok (d, sz3) =>
          match setF c sz3 1 (Nat.land b d) with
          | .error p => .panic p c
          | .ok (c', sz') => .next { c' with ip := (c.ip + sz') % wsize } := rfl

/-- Equation of `dispatch` at opcode 13. -/
theorem dispatch_eq13 (o : Bool) (c : Config) :
    dispatch o c 13 =
      match getF c 1 2 with
      | .error p => .panic p c
      | .ok (b, sz2) =>
        match getF c sz2 3 with
        | .error p => .panic p c
        | .ok (d, sz3) =>
          match setF c sz3 1 (Nat.lor b d) with
          | .error p => .panic p c
          | .ok (c', sz') => .next { c' with ip := (c.ip + sz') % wsize } := rfl

/-- Equation of `dispatch` at opcode 14. -/
theorem dispatch_eq14 (o : Bool) (c : Config) :
    dispatch o c 14 =
      match getF c 1 2 with
      | .error p => .panic p c
      | .ok (b, sz2) =>
        match setF c sz2 1 (Nat.land (Nat.xor b 65535) vmax) with
        | .error p => .panic p c
        | .ok (c', sz') => .next { c' with ip := (c.ip + sz') % wsize } := rfl

/-- Equation of `dispatch` at opcode 15. -/
theorem dispatch_eq15 (o : Bool) (c : Config) :
    dispatch o c 15 =
      match getF c 1 2 with
      | .error p => .panic p c
      | .ok (b, sz2) =>
        match memRead c b with
        | .error p => .panic p c
        | .ok mv =>
          match setF c sz2 1 mv with
          | .error p => .panic p c
          | .ok (c', sz') => .next { c' with ip := (c.ip + sz') % wsize } := rfl

/-- Equation of `dispatch` at opcode 16. -/
theorem dispatch_eq16 (o : Bool) (c : Config) :
    dispatch o c 16 =
      match getF c 1 1 with
      | .error p => .panic p c
      | .ok (a, sz1) =>
        match getF c sz1 2 with
        | .error p => .panic p c
        | .ok (b, sz2) =>
          match memWrite c a b with
          | .error p => .panic p c
          | .ok c' => .next { c' with ip := (c.ip + sz2) % wsize } := rfl

/-- Equation of `dispatch` at opcode 17. -/
theorem dispatch_eq17 (o : Bool) (c : Config) :
    dispatch o c 17 =
      match getF c 1 1 with
      | .error p => .panic p c
      | .ok (a, sz1) =>
        .next { c with stack := ((c.ip + sz1) % wsize) :: c.stack, ip := a % wsize } := rfl

/-- Equation of `dispatch` at opcode 18. -/
theorem dispatch_eq18 (o : Bool) (c : Config) :
    dispatch o c 18 =
      match popF c.stack with
      | .error p => .panic p c
      | .ok (v, st) => .next { c with stack := st, ip := v % wsize } := rfl

/-- Equation of `dispatch` at opcode 19. -/
theorem dispatch_eq19 (o : Bool) (c : Config) :
    dispatch o c 19 =
      match getF c 1 1 with
      | .error p => .panic p c
      | .ok (a, sz1) =>
        .next { c with output := c.output ++ [a % 256], ip := (c.ip + sz1) % wsize } := rfl

/-- Equation of `dispatch` at opcode 20. -/
theorem dispatch_eq20 (o : Bool) (c : Config) :
    dispatch o c 20 =
      match c.input with
      | [] => if c.quitClosed then .done c else .blocked c
      | v :: rest =>
        if c.quitClosed && o then .done c
        else
          match setF { c with input := rest } 1 1 v with
          | .error p => .panic p { c with input := rest }
          | .ok (c', sz') => .next { c' with ip := (c.ip + sz') % wsize } := rfl

/-- Equation of `dispatch` at opcode 21. -/
theorem dispatch_eq21 (o : Bool) (c : Config) :
    dispatch o c 21 =
      .next { c with ip := (c.ip + 1) % wsize } := rfl

/-- Equation of `dispatch` at an invalid opcode (22 or more). -/
theorem dispatch_eq_invalid (o : Bool) (c : Config) (op : Nat) (h : 22 <= op) :
    dispatch o c op = .panic (.str (invalidOpMsg op c.ip)) c := by
  unfold dispatch
  rw [if_neg (show ¬ op = 0 by omega), if_neg (show ¬ op = 1 by omega), if_neg (show ¬ op = 2 by omega), if_neg (show ¬ op = 3 by omega), if_neg (show ¬ op = 4 by omega), if_neg (show ¬ op = 5 by omega), if_neg (show ¬ op = 6 by omega), if_neg (show ¬ op = 7 by omega), if_neg (show ¬ op = 8 by omega), if_neg (show ¬ op = 9 by omega), if_neg (show ¬ op = 10 by omega), if_neg (show ¬ op = 11 by omega), if_neg (show ¬ op = 12 by omega), if_neg (show ¬ op = 13 by omega), if_neg (show ¬ op = 14 by omega), if_neg (show ¬ op = 15 by omega), if_neg (show ¬ op = 16 by omega), if_neg (show ¬ op = 17 by omega), if_neg (show ¬ op = 18 by omega), if_neg (show ¬ op = 19 by omega), if_neg (show ¬ op = 20 by omega), if_neg (show ¬ op = 21 by omega)]



/-- Inversion of a loop iteration that continued: the quit channel was open, the opcode fetch at `ip` was in bounds, and the dispatch on the fetched opcode produced the next configuration. -/
theorem step_next_elim (o : Bool) (c c' : Config) (hs : step o c = .next c') :
    c.quitClosed = false ∧ c.ip < msize ∧ dispatch o c (c.mem c.ip) = .next c' := by
  unfold step at hs
  by_cases hq : c.quitClosed
  · rw [if_pos hq] at hs; simp at hs
  · rw [if_neg hq] at hs
    cases hmr : memRead c c.ip with
    | error p => rw [hmr] at hs; simp at hs
    | ok op =>
      rw [hmr] at hs
      dsimp only at hs
      obtain ⟨hv, hip⟩ := memRead_ok_elim _ _ _ hmr
      subst hv
      exact ⟨by simpa using hq, hip, hs⟩

/-- Claim C6 (amended): `jmp` and `call` never apply the fallthrough advance: after their step, `ip` is exactly the value resolved for their first operand.  `jt` and `jf` never apply it when the branch is taken (tested value nonzero for `jt`, zero for `jf`); when the branch is not taken they do fall through, advancing `ip` by the recorded instruction size. -/
theorem c6_jump_targets (o : Bool) (c c' : Config)
    (hm : ∀ k, c.mem k < wsize) (hr : ∀ j, c.reg j < wsize)
    (hs : step o c = .next c') :
    (c.mem c.ip = 6 → ∃ s, getF c 1 1 = .ok (c'.ip, s)) ∧
    (c.mem c.ip = 17 → ∃ s, getF c 1 1 = .ok (c'.ip, s)) ∧
    (c.mem c.ip = 7 → ∀ a sa v sv, getF c 1 2 = .ok (a, sa) → getF c sa 1 = .ok (v, sv) →
      (v ≠ 0 → c'.ip = a) ∧ (v = 0 → c'.ip = (c.ip + sv) % wsize)) ∧
    (c.mem c.ip = 8 → ∀ a sa v sv, getF c 1 2 = .ok (a, sa) → getF c sa 1 = .ok (v, sv) →
      (v = 0 → c'.ip = a) ∧ (v ≠ 0 → c'.ip = (c.ip + sv) % wsize)) := by
  obtain ⟨hq, hip, hd⟩ := step_next_elim o c c' hs
  refine ⟨?_, ?_, ?_, ?_⟩
  · intro h6
    rw [h6, dispatch_eq6] at hd
    cases hg : getF c 1 1 with
    | error p => rw [hg] at hd; simp at hd
    | ok vs =>
      obtain ⟨a, s⟩ := vs
      rw [hg] at hd
      dsimp only at hd
      injection hd with hd'
      have ha : a < wsize := getF_ok_lt _ _ _ _ _ hm hr hg
      have hip' : c'.ip = a % wsize := by rw [← hd']
      exact ⟨s, by rw [hip', Nat.mod_eq_of_lt ha]⟩
  · intro h17
    rw [h17, dispatch_eq17] at hd
    cases hg : getF c 1 1 with
    | error p => rw [hg] at hd; simp at hd
    | ok vs =>
      obtain ⟨a, s⟩ := vs
      rw [hg] at hd
      dsimp only at hd
      injection hd with hd'
      have ha : a < wsize := getF_ok_lt _ _ _ _ _ hm hr hg
      have hip' : c'.ip = a % wsize := by rw [← hd']
      exact ⟨s, by rw [hip', Nat.mod_eq_of_lt ha]⟩
  · intro h7 a sa v sv hga hgv
    rw [h7, dispatch_eq7] at hd
    rw [hga] at hd
    dsimp only at hd
    rw [hgv] at hd
    dsimp only at hd
    have ha : a < wsize := getF_ok_lt _ _ _ _ _ hm hr hga
    by_cases hv : v = 0
    · rw [if_neg (by simpa using hv)] at hd
      injection hd with hd'
      have hip' : c'.ip = (c.ip + sv) % wsize := by rw [← hd']
      exact ⟨fun hne => absurd hv hne, fun _ => hip'⟩
    · rw [if_pos (by simpa using hv)] at hd
      injection hd with hd'
      have hip' : c'.ip = a % wsize := by rw [← hd']
      exact ⟨fun _ => by rw [hip']; exact Nat.mod_eq_of_lt ha, fun h0 => absurd h0 hv⟩
  · intro h8 a sa v sv hga hgv
    rw [h8, dispatch_eq8] at hd
    rw [hga] at hd
    dsimp only at hd
    rw [hgv] at hd
    dsimp only at hd
    have ha : a < wsize := getF_ok_lt _ _ _ _ _ hm hr hga
    by_cases hv : v = 0
    · rw [if_pos hv] at hd
      injection hd with hd'
      have hip' : c'.ip = a % wsize := by rw [← hd']
      exact ⟨fun _ => by rw [hip']; exact Nat.mod_eq_of_lt ha, fun hne => absurd hv hne⟩
    · rw [if_neg hv] at hd
      injection hd with hd'
      have hip' : c'.ip = (c.ip + sv) % wsize := by rw [← hd']
      exact ⟨fun h0 => absurd h0 hv, fun _ => hip'⟩

/-- Claim C6 (counterexample): a `jt` whose tested value is zero does apply the default fallthrough advance: on program `[7, 0, 5]` the resolved jump target is 5 but `ip` after the step is 3. -/
theorem c6_counterexample_jt_falls_through :
    getF (initConfig [7, 0, 5] []) 1 2 = .ok (5, 3) ∧
    stepIp (step false (initConfig [7, 0, 5] [])) = some 3 ∧
    stepIp (step false (initConfig [7, 0, 5] [])) ≠ some 5 :=
  ⟨rfl, by decide, by decide⟩

/-- A memory image built from a list of words below a bound stays below that bound everywhere (the zero fill included). -/
theorem memOfList_lt (b : Nat) (h0 : 0 < b) :
    ∀ (l : List Nat) (k : Nat), (∀ x ∈ l, x < b) → memOfList l k < b := by
  intro l
  induction l with
  | nil =>
    intro k _
    simpa [memOfList, List.getD] using h0
  | cons x t ih =>
    intro k hb
    cases k with
    | zero => simpa [memOfList] using hb x (by simp)
    | succ k' =>
      have ht := ih k' (fun y hy => hb y (by simp [hy]))
      simpa [memOfList] using ht

/-- Claim C6 (witness): the amended jump property evaluated on a concrete `jmp 4` program. -/
theorem c6_jump_witness :
    ∃ c', step false (initConfig [6, 4] []) = .next c' ∧
      getF (initConfig [6, 4] []) 1 1 = .ok (c'.ip, 2) := by
  refine ⟨_, rfl, ?_⟩
  obtain ⟨s, hg⟩ :=
    (c6_jump_targets false (initConfig [6, 4] []) _
      (fun k => memOfList_lt wsize (by decide) [6, 4] k (by decide))
      (fun j => by simp [initConfig, wsize]) rfl).1 rfl
  have hs : s = 2 := by
    obtain ⟨-, hsz, -, -⟩ := getF_ok_elim _ _ _ _ _ hg
    simpa [newSz] using hsz
  rw [← hs]
  exact hg

/-- A step that ends by committing a `set` and advancing `ip` changes nothing but the written register and `ip`. -/
theorem frame_of_setF_next (c c₂ c' : Config) (sz v s₂ x : Nat)
    (hset : setF c sz 1 v = .ok (c₂, s₂))
    (heq : StepRes.next { c₂ with ip := x } = StepRes.next c') :
    c'.mem = c.mem ∧ c'.stack = c.stack ∧ c'.quitClosed = c.quitClosed ∧
    c'.input = c.input ∧ c'.output = c.output ∧
    (∀ j, j ≠ c.mem (opAddr c 1) - vreg → c'.reg j = c.reg j) := by
  injection heq with h
  subst h
  obtain ⟨-, -, -, -, -, hc₂⟩ := setF_ok_elim _ _ _ _ _ _ hset
  subst hc₂
  refine ⟨rfl, rfl, rfl, rfl, rfl, fun j hj => ?_⟩
  simp [hj]

/-- Frame property of the dispatch shape "one `get`, then `set` into operand 1": memory, stack, channels and all registers but the operand-1 target are unchanged. -/
theorem frame_of_get_set (c c' : Config) (garg : Nat) (f : Nat → Nat)
    (hd : (match getF c 1 garg with
           | .error p => .panic p c
           | .ok (b, sz) =>
             match setF c sz 1 (f b) with
             | .error p => .panic p c
             | .ok (c₂, sz') => .next { c₂ with ip := (c.ip + sz') % wsize })
          = StepRes.next c') :
    c'.mem = c.mem ∧ c'.stack = c.stack ∧ c'.quitClosed = c.quitClosed ∧
    c'.input = c.input ∧ c'.output = c.output ∧
    (∀ j, j ≠ c.mem (opAddr c 1) - vreg → c'.reg j = c.reg j) := by
  cases hg : getF c 1 garg with
  | error p => rw [hg] at hd; simp at hd
  | ok bs =>
    obtain ⟨b, sb⟩ := bs
    rw [hg] at hd
    dsimp only at hd
    cases hset : setF c sb 1 (f b) with
    | error p => rw [hset] at hd; simp at hd
    | ok cs =>
      obtain ⟨c₂, s₂⟩ := cs
      rw [hset] at hd
      dsimp only at hd
      exact frame_of_setF_next c c₂ c' sb (f b) s₂ _ hset hd

/-- Frame property of the dispatch shape "two `get`s, then `set` into operand 1". -/
theorem frame_of_get_get_set (c c' : Config) (f : Nat → Nat → Nat)
    (hd : (match getF c 1 2 with
           | .error p => .panic p c
           | .ok (b, sz2) =>
             match getF c sz2 3 with
             | .error p => .panic p c
             | .ok (d, sz3) =>
               match setF c sz3 1 (f b d) with
               | .error p => .panic p c
               | .ok (c₂, sz') => .next { c₂ with ip := (c.ip + sz') % wsize })
          = StepRes.next c') :
    c'.mem = c.mem ∧ c'.stack = c.stack ∧ c'.quitClosed = c.quitClosed ∧
    c'.input = c.input ∧ c'.output = c.output ∧
    (∀ j, j ≠ c.mem (opAddr c 1) - vreg → c'.reg j = c.reg j) := by
  cases hg : getF c 1 2 with
  | error p => rw [hg] at hd; simp at hd
  | ok bs =>
    obtain ⟨b, sb⟩ := bs
    rw [hg] at hd
    dsimp only at hd
    cases hg3 : getF c sb 3 with
    | error p => rw [hg3] at hd; simp at hd
    | ok ds =>
      obtain ⟨d, sd⟩ := ds
      rw [hg3] at hd
      dsimp only at hd
      cases hset : setF c sd 1 (f b d) with
      | error p => rw [hset] at hd; simp at hd
      | ok cs =>
        obtain ⟨c₂, s₂⟩ := cs
        rw [hset] at hd
        dsimp only at hd
        exact frame_of_setF_next c c₂ c' sd (f b d) s₂ _ hset hd

/-- Claim C10: every instruction among `set`, `eq`, `gt`, `add`, `mult`, `mod`, `and`, `or`, `not` and `rmem` that completes without a fault modifies at most the register designated by its first operand and the instruction pointer: memory, the stack, the channels and every other register are unchanged. -/
theorem c10_frame (o : Bool) (c c' : Config)
    (hop : c.mem c.ip ∈ ([1, 4, 5, 9, 10, 11, 12, 13, 14, 15] : List Nat))
    (hs : step o c = .next c') :
    c'.mem = c.mem ∧ c'.stack = c.stack ∧ c'.quitClosed = c.quitClosed ∧
    c'.input = c.input ∧ c'.output = c.output ∧
    (∀ j, j ≠ c.mem (opAddr c 1) - vreg → c'.reg j = c.reg j) := by
  obtain ⟨hq, hip, hd⟩ := step_next_elim o c c' hs
  simp only [List.mem_cons, List.not_mem_nil, or_false] at hop
  rcases hop with h|h|h|h|h|h|h|h|h|h
  · rw [h, dispatch_eq1] at hd
    exact frame_of_get_set c c' 2 (fun b => b) hd
  · rw [h, dispatch_eq4] at hd
    exact frame_of_get_get_set c c' (fun b d => if b = d then 1 else 0) hd
  · rw [h, dispatch_eq5] at hd
    exact frame_of_get_get_set c c' (fun b d => if d < b then 1 else 0) hd
  · rw [h, dispatch_eq9] at hd
    exact frame_of_get_get_set c c' (fun b d => (b + d) % wsize % vmod) hd
  · rw [h, dispatch_eq10] at hd
    exact frame_of_get_get_set c c' (fun b d => b * d % vmod) hd
  · rw [h, dispatch_eq11] at hd
    cases hg : getF c 1 2 with
    | error p => rw [hg] at hd; simp at hd
    | ok bs =>
      obtain ⟨b, sb⟩ := bs
      rw [hg] at hd
      dsimp only at hd
      cases hg3 : getF c sb 3 with
      | error p => rw [hg3] at hd; simp at hd
      | ok ds =>
        obtain ⟨d, sd⟩ := ds
        rw [hg3] at hd
        dsimp only at hd
        by_cases hd0 : d = 0
        · rw [if_pos hd0] at hd
          simp at hd
        · rw [if_neg hd0] at hd
          cases hset : setF c sd 1 (b % d) with
          | error p => rw [hset] at hd; simp at hd
          | ok cs =>
            obtain ⟨c₂, s₂⟩ := cs
            rw [hset] at hd
            dsimp only at hd
            exact frame_of_setF_next c c₂ c' sd (b % d) s₂ _ hset hd
  · rw [h, dispatch_eq12] at hd
    exact frame_of_get_get_set c c' (fun b d => Nat.land b d) hd
  · rw [h, dispatch_eq13] at hd
    exact frame_of_get_get_set c c' (fun b d => Nat.lor b d) hd
  · rw [h, dispatch_eq14] at hd
    exact frame_of_get_set c c' 2 (fun b => Nat.land (Nat.xor b 65535) vmax) hd
  · rw [h, dispatch_eq15] at hd
    cases hg : getF c 1 2 with
    | error p => rw [hg] at hd; simp at hd
    | ok bs =>
      obtain ⟨b, sb⟩ := bs
      rw [hg] at hd
      dsimp only at hd
      cases hmr : memRead c b with
      | error p => rw [hmr] at hd; simp at hd
      | ok mv =>
        rw [hmr] at hd
        dsimp only at hd
        cases hset : setF c sb 1 mv with
        | error p => rw [hset] at hd; simp at hd
        | ok cs =>
          obtain ⟨c₂, s₂⟩ := cs
          rw [hset] at hd
          dsimp only at hd
          exact frame_of_setF_next c c₂ c' sb mv s₂ _ hset hd

/-- Claim C10 (witness): the frame property evaluated on a concrete `set r0 7` instruction. -/
theorem c10_frame_witness :
    ∃ c', step false (initConfig [1, 32768, 7] []) = .next c' ∧
      (c'.mem = (initConfig [1, 32768, 7] []).mem ∧
       c'.stack = (initConfig [1, 32768, 7] []).stack ∧
       c'.quitClosed = (initConfig [1, 32768, 7] []).quitClosed ∧
       c'.input = (initConfig [1, 32768, 7] []).input ∧
       c'.output = (initConfig [1, 32768, 7] []).output ∧
       (∀ j, j ≠ (initConfig [1, 32768, 7] []).mem (opAddr (initConfig [1, 32768, 7] []) 1) - vreg →
         c'.reg j = (initConfig [1, 32768, 7] []).reg j)) := by
  refine ⟨_, rfl, ?_⟩
  exact c10_frame false (initConfig [1, 32768, 7] []) _ (by decide) rfl

/-- Operand addresses are `uint16` values. -/
theorem opAddr_lt (c : Config) (arg : Nat) : opAddr c arg < wsize :=
  Nat.mod_lt _ (by norm_num [wsize])

/-- The only failure of `pop` is the string panic for an empty stack; it is never a runtime panic. -/
theorem popF_err_elim (s : List Nat) (p : Panic) (h : popF s = .error p) :
    p = .str "pop with empty stack" := by
  cases s with
  | nil =>
    unfold popF at h
    injection h with h'
    exact h'.symm
  | cons v rest => simp [popF] at h

/-- A runtime index-out-of-range panic propagated out of a `get` has its index in the invalid `uint16` range `[msize, wsize)`. -/
theorem oob_of_getF_panic (c cc c₃ : Config) (sz arg i : Nat) (p : Panic)
    (hg : getF c sz arg = .error p)
    (hd : StepRes.panic p c₃ = .panic (.rt (.indexOOB i)) cc) :
    msize ≤ i ∧ i < wsize := by
  injection hd with h1 h2
  subst h1
  obtain ⟨he, hge⟩ := getF_err_rt_elim _ _ _ _ hg
  injection he with h3
  subst h3
  exact ⟨hge, opAddr_lt c arg⟩

/-- A runtime index-out-of-range panic propagated out of a `set` has its index in `[msize, wsize)`. -/
theorem oob_of_setF_panic (c cc c₃ : Config) (sz arg v i : Nat) (p : Panic)
    (hg : setF c sz arg v = .error p)
    (hd : StepRes.panic p c₃ = .panic (.rt (.indexOOB i)) cc) :
    msize ≤ i ∧ i < wsize := by
  injection hd with h1 h2
  subst h1
  obtain ⟨he, hge⟩ := setF_err_rt_elim _ _ _ _ _ hg
  injection he with h3
  subst h3
  exact ⟨hge, opAddr_lt c arg⟩

/-- A runtime panic of a direct memory read at a `uint16` address has its index in `[msize, wsize)`. -/
theorem oob_of_memRead_panic (c cc c₃ : Config) (b i : Nat) (p : Panic) (hb : b < wsize)
    (hmr : memRead c b = .error p)
    (hd : StepRes.panic p c₃ = .panic (.rt (.indexOOB i)) cc) :
    msize ≤ i ∧ i < wsize := by
  injection hd with h1 h2
  subst h1
  obtain ⟨hp, hge⟩ := memRead_err_elim _ _ _ hmr
  injection hp with h3
  injection h3 with h4
  subst h4
  exact ⟨hge, hb⟩

/-- A runtime panic of a direct memory write at a `uint16` address has its index in `[msize, wsize)`. -/
theorem oob_of_memWrite_panic (c cc c₃ : Config) (b v i : Nat) (p : Panic) (hb : b < wsize)
    (hmw : memWrite c b v = .error p)
    (hd : StepRes.panic p c₃ = .panic (.rt (.indexOOB i)) cc) :
    msize ≤ i ∧ i < wsize := by
  injection hd with h1 h2
  subst h1
  obtain ⟨hp, hge⟩ := memWrite_err_elim _ _ _ _ hmw
  injection hp with h3
  injection h3 with h4
  subst h4
  exact ⟨hge, hb⟩

/-- Out-of-range bound for a dispatch shape that performs one `get` and then always continues. -/
theorem oob_of_get_then (c cc : Config) (i garg gsz : Nat) (k : Nat → Nat → StepRes)
    (hk : ∀ a s, ∃ c₃, k a s = .next c₃)
    (hd : (match getF c gsz garg with
           | .error p => .panic p c
           | .ok (a, s) => k a s) = StepRes.panic (.rt (.indexOOB i)) cc) :
    msize ≤ i ∧ i < wsize := by
  cases hg : getF c gsz garg with
  | error p =>
    rw [hg] at hd
    dsimp only at hd
    exact oob_of_getF_panic c cc c gsz garg i p hg hd
  | ok as =>
    obtain ⟨a, s⟩ := as
    rw [hg] at hd
    dsimp only at hd
    obtain ⟨c₃, hk'⟩ := hk a s
    rw [hk'] at hd
    simp at hd

/-- Out-of-range bound for the dispatch shape "one `get`, then `set`". -/
theorem oob_of_get_set_panic (c cc : Config) (i garg : Nat) (f : Nat → Nat)
    (hd : (match getF c 1 garg with
           | .error p => .panic p c
           | .ok (b, sz) =>
             match setF c sz 1 (f b) with
             | .error p => .panic p c
             | .ok (c₂, sz') => .next { c₂ with ip := (c.ip + sz') % wsize })
          = StepRes.panic (.rt (.indexOOB i)) cc) :
    msize ≤ i ∧ i < wsize := by
  cases hg : getF c 1 garg with
  | error p =>
    rw [hg] at hd
    dsimp only at hd
    exact oob_of_getF_panic c cc c 1 garg i p hg hd
  | ok bs =>
    obtain ⟨b, sb⟩ := bs
    rw [hg] at hd
    dsimp only at hd
    cases hset : setF c sb 1 (f b) with
    | error p =>
      rw [hset] at hd
      dsimp only at hd
      exact oob_of_setF_panic c cc c sb 1 (f b) i p hset hd
    | ok cs =>
      obtain ⟨c₂, s₂⟩ := cs
      rw [hset] at hd
      dsimp only at hd
      simp at hd

/-- Out-of-range bound for the dispatch shape "two `get`s, then `set`". -/
theorem oob_of_get_get_set_panic (c cc : Config) (i : Nat) (f : Nat → Nat → Nat)
    (hd : (match getF c 1 2 with
           | .error p => .panic p c
           | .ok (b, sz2) =>
             match getF c sz2 3 with
             | .error p => .panic p c
             | .ok (d, sz3) =>
               match setF c sz3 1 (f b d) with
               | .error p => .panic p c
               | .ok (c₂, sz') => .next { c₂ with ip := (c.ip + sz') % wsize })
          = StepRes.panic (.rt (.indexOOB i)) cc) :
    msize ≤ i ∧ i < wsize := by
  cases hg : getF c 1 2 with
  | error p =>
    rw [hg] at hd
    dsimp only at hd
    exact oob_of_getF_panic c cc c 1 2 i p hg hd
  | ok bs =>
    obtain ⟨b, sb⟩ := bs
    rw [hg] at hd
    dsimp only at hd
    cases hg3 : getF c sb 3 with
    | error p =>
      rw [hg3] at hd
      dsimp only at hd
      exact oob_of_getF_panic c cc c sb 3 i p hg3 hd
    | ok ds =>
      obtain ⟨d, sd⟩ := ds
      rw [hg3] at hd
      dsimp only at hd
      cases hset : setF c sd 1 (f b d) with
      | error p =>
        rw [hset] at hd
        dsimp only at hd
        exact oob_of_setF_panic c cc c sd 1 (f b d) i p hset hd
      | ok cs =>
        obtain ⟨c₂, s₂⟩ := cs
        rw [hset] at hd
        dsimp only at hd
        simp at hd



/-- Every runtime index-out-of-range panic raised by an opcode handler, on a configuration whose words are `uint16` values, has its index in `[msize, wsize)`: handlers only index memory with `uint16` values, and the bounds check catches exactly those in `[32768, 65536)`. -/
theorem dispatch_panic_oob (o : Bool) (c cc : Config) (op i : Nat)
    (hm : ∀ k, c.mem k < wsize) (hr : ∀ j, c.reg j < wsize)
    (hd : dispatch o c op = .panic (.rt (.indexOOB i)) cc) :
    msize ≤ i ∧ i < wsize := by
  by_cases h22 : op < 22
  swap
  · rw [dispatch_eq_invalid o c op (by omega)] at hd
    simp at hd
  interval_cases op
  · -- op 0: halt
    rw [dispatch_eq0] at hd
    cases hcc : closeChan c.quitClosed with
    | none => rw [hcc] at hd; simp at hd
    | some b => rw [hcc] at hd; simp at hd
  · -- op 1: set
    rw [dispatch_eq1] at hd
    exact oob_of_get_set_panic c cc i 2 (fun b => b) hd
  · -- op 2: push
    rw [dispatch_eq2] at hd
    exact oob_of_get_then c cc i 1 1 _ (fun a s => ⟨_, rfl⟩) hd
  · -- op 3: pop
    rw [dispatch_eq3] at hd
    cases hp : popF c.stack with
    | error p =>
      rw [hp] at hd
      dsimp only at hd
      rw [popF_err_elim _ _ hp] at hd
      simp at hd
    | ok vs =>
      obtain ⟨v, st⟩ := vs
      rw [hp] at hd
      dsimp only at hd
      cases hset : setF { c with stack := st } 1 1 v with
      | error p =>
        rw [hset] at hd
        dsimp only at hd
        exact oob_of_setF_panic { c with stack := st } cc { c with stack := st } 1 1 v i p hset hd
      | ok cs =>
        obtain ⟨c₂, s₂⟩ := cs
        rw [hset] at hd
        dsimp only at hd
        simp at hd
  · -- op 4: eq
    rw [dispatch_eq4] at hd
    exact oob_of_get_get_set_panic c cc i (fun b d => if b = d then 1 else 0) hd
  · -- op 5: gt
    rw [dispatch_eq5] at hd
    exact oob_of_get_get_set_panic c cc i (fun b d => if d < b then 1 else 0) hd
  · -- op 6: jmp
    rw [dispatch_eq6] at hd
    exact oob_of_get_then c cc i 1 1 _ (fun a s => ⟨_, rfl⟩) hd
  · -- op 7: jt
    rw [dispatch_eq7] at hd
    cases hg2 : getF c 1 2 with
    | error p =>
      rw [hg2] at hd
      dsimp only at hd
      exact oob_of_getF_panic c cc c 1 2 i p hg2 hd
    | ok as =>
      obtain ⟨a, sa⟩ := as
      rw [hg2] at hd
      dsimp only at hd
      cases hg1 : getF c sa 1 with
      | error p =>
        rw [hg1] at hd
        dsimp only at hd
        exact oob_of_getF_panic c cc c sa 1 i p hg1 hd
      | ok vs =>
        obtain ⟨v, sv⟩ := vs
        rw [hg1] at hd
        dsimp only at hd
        by_cases hv : v = 0
        · rw [if_neg (by simpa using hv)] at hd
          simp at hd
        · rw [if_pos (by simpa using hv)] at hd
          simp at hd
  · -- op 8: jf
    rw [dispatch_eq8] at hd
    cases hg2 : getF c 1 2 with
    | error p =>
      rw [hg2] at hd
      dsimp only at hd
      exact oob_of_getF_panic c cc c 1 2 i p hg2 hd
    | ok as =>
      obtain ⟨a, sa⟩ := as
      rw [hg2] at hd
      dsimp only at hd
      cases hg1 : getF c sa 1 with
      | error p =>
        rw [hg1] at hd
        dsimp only at hd
        exact oob_of_getF_panic c cc c sa 1 i p hg1 hd
      | ok vs =>
        obtain ⟨v, sv⟩ := vs
        rw [hg1] at hd
        dsimp only at hd
        by_cases hv : v = 0
        · rw [if_pos hv] at hd
          simp at hd
        · rw [if_neg hv] at hd
          simp at hd
  · -- op 9: add
    rw [dispatch_eq9] at hd
    exact oob_of_get_get_set_panic c cc i (fun b d => (b + d) % wsize % vmod) hd
  · -- op 10: mult
    rw [dispatch_eq10] at hd
    exact oob_of_get_get_set_panic c cc i (fun b d => b * d % vmod) hd
  · -- op 11: mod
    rw [dispatch_eq11] at hd
    cases hg : getF c 1 2 with
    | error p =>
      rw [hg] at hd
      dsimp only at hd
      exact oob_of_getF_panic c cc c 1 2 i p hg hd
    | ok bs =>
      obtain ⟨b, sb⟩ := bs
      rw [hg] at hd
      dsimp only at hd
      cases hg3 : getF c sb 3 with
      | error p =>
        rw [hg3] at hd
        dsimp only at hd
        exact oob_of_getF_panic c cc c sb 3 i p hg3 hd
      | ok ds =>
        obtain ⟨d, sd⟩ := ds
        rw [hg3] at hd
        dsimp only at hd
        by_cases hd0 : d = 0
        · rw [if_pos hd0] at hd
          simp at hd
        · rw [if_neg hd0] at hd
          cases hset : setF c sd 1 (b % d) with
          | error p =>
            rw [hset] at hd
            dsimp only at hd
            exact oob_of_setF_panic c cc c sd 1 (b % d) i p hset hd
          | ok cs =>
            obtain ⟨c₂, s₂⟩ := cs
            rw [hset] at hd
            dsimp only at hd
            simp at hd
  · -- op 12: and
    rw [dispatch_eq12] at hd
    exact oob_of_get_get_set_panic c cc i (fun b d => Nat.land b d) hd
  · -- op 13: or
    rw [dispatch_eq13] at hd
    exact oob_of_get_get_set_panic c cc i (fun b d => Nat.lor b d) hd
  · -- op 14: not
    rw [dispatch_eq14] at hd
    exact oob_of_get_set_panic c cc i 2 (fun b => Nat.land (Nat.xor b 65535) vmax) hd
  · -- op 15: rmem
    rw [dispatch_eq15] at hd
    cases hg : getF c 1 2 with
    | error p =>
      rw [hg] at hd
      dsimp only at hd
      exact oob_of_getF_panic c cc c 1 2 i p hg hd
    | ok bs =>
      obtain ⟨b, sb⟩ := bs
      rw [hg] at hd
      dsimp only at hd
      have hb : b < wsize := getF_ok_lt _ _ _ _ _ hm hr hg
      cases hmr : memRead c b with
      | error p =>
        rw [hmr] at hd
        dsimp only at hd
        exact oob_of_memRead_panic c cc c b i p hb hmr hd
      | ok mv =>
        rw [hmr] at hd
        dsimp only at hd
        cases hset : setF c sb 1 mv with
        | error p =>
          rw [hset] at hd
          dsimp only at hd
          exact oob_of_setF_panic c cc c sb 1 mv i p hset hd
        | ok cs =>
          obtain ⟨c₂, s₂⟩ := cs
          rw [hset] at hd
          dsimp only at hd
          simp at hd
  · -- op 16: wmem
    rw [dispatch_eq16] at hd
    cases hg1 : getF c 1 1 with
    | error p =>
      rw [hg1] at hd
      dsimp only at hd
      exact oob_of_getF_panic c cc c 1 1 i p hg1 hd
    | ok as =>
      obtain ⟨a, sa⟩ := as
      rw [hg1] at hd
      dsimp only at hd
      cases hg2 : getF c sa 2 with
      | error p =>
        rw [hg2] at hd
        dsimp only at hd
        exact oob_of_getF_panic c cc c sa 2 i p hg2 hd
      | ok bs =>
        obtain ⟨b, sb⟩ := bs
        rw [hg2] at hd
        dsimp only at hd
        have ha : a < wsize := getF_ok_lt _ _ _ _ _ hm hr hg1
        cases hmw : memWrite c a b with
        | error p =>
          rw [hmw] at hd
          dsimp only at hd
          exact oob_of_memWrite_panic c cc c a b i p ha hmw hd
        | ok c₂ =>
          rw [hmw] at hd
          dsimp only at hd
          simp at hd
  · -- op 17: call
    rw [dispatch_eq17] at hd
    exact oob_of_get_then c cc i 1 1 _ (fun a s => ⟨_, rfl⟩) hd
  · -- op 18: ret
    rw [dispatch_eq18] at hd
    cases hp : popF c.stack with
    | error p =>
      rw [hp] at hd
      dsimp only at hd
      rw [popF_err_elim _ _ hp] at hd
      simp at hd
    | ok vs =>
      obtain ⟨v, st⟩ := vs
      rw [hp] at hd
      dsimp only at hd
      simp at hd
  · -- op 19: out
    rw [dispatch_eq19] at hd
    exact oob_of_get_then c cc i 1 1 _ (fun a s => ⟨_, rfl⟩) hd
  · -- op 20: in
    rw [dispatch_eq20] at hd
    cases hin : c.input with
    | nil =>
      rw [hin] at hd
      dsimp only at hd
      by_cases hq : c.quitClosed
      · rw [if_pos hq] at hd
        simp at hd
      · rw [if_neg hq] at hd
        simp at hd
    | cons v rest =>
      rw [hin] at hd
      dsimp only at hd
      by_cases hqo : (c.quitClosed && o) = true
      · rw [if_pos hqo] at hd
        simp at hd
      · rw [if_neg hqo] at hd
        cases hset : setF { c with input := rest } 1 1 v with
        | error p =>
          rw [hset] at hd
          dsimp only at hd
          exact oob_of_setF_panic { c with input := rest } cc { c with input := rest } 1 1 v i p hset hd
        | ok cs =>
          obtain ⟨c₂, s₂⟩ := cs
          rw [hset] at hd
          dsimp only at hd
          simp at hd
  · -- op 21: nop
    rw [dispatch_eq21] at hd
    simp at hd



/-- Inversion of a panicking loop iteration: either the opcode fetch itself was out of bounds, or the fetch succeeded and the dispatch panicked. -/
theorem step_panic_elim (o : Bool) (c cc : Config) (p : Panic) (hs : step o c = .panic p cc) :
    (msize ≤ c.ip ∧ p = .rt (.indexOOB c.ip)) ∨
    (c.ip < msize ∧ dispatch o c (c.mem c.ip) = .panic p cc) := by
  unfold step at hs
  by_cases hq : c.quitClosed
  · rw [if_pos hq] at hs
    simp at hs
  · rw [if_neg hq] at hs
    cases hmr : memRead c c.ip with
    | error p' =>
      rw [hmr] at hs
      dsimp only at hs
      obtain ⟨hp', hge⟩ := memRead_err_elim _ _ _ hmr
      injection hs with h1 h2
      left
      exact ⟨hge, by rw [← h1, hp']⟩
    | ok op =>
      rw [hmr] at hs
      dsimp only at hs
      obtain ⟨hv, hip⟩ := memRead_ok_elim _ _ _ hmr
      subst hv
      right
      exact ⟨hip, hs⟩

/-- Claim C8 (amended): every memory access of an execution step uses an index below 65536 (the `uint16` index range) but not necessarily below 32768: whenever a step aborts with an index-out-of-range runtime panic, the offending index lies in `[32768, 65536)`.  Such a panic crashes the process, since the recover handler only converts string panics. -/
theorem c8_access_bounds (o : Bool) (c cc : Config) (i : Nat)
    (hm : ∀ k, c.mem k < wsize) (hr : ∀ j, c.reg j < wsize) (hip : c.ip < wsize)
    (hs : step o c = .panic (.rt (.indexOOB i)) cc) :
    msize ≤ i ∧ i < wsize := by
  rcases step_panic_elim o c cc _ hs with ⟨hge, hp⟩ | ⟨hlt, hd⟩
  · injection hp with h3
    injection h3 with h4
    subst h4
    exact ⟨hge, hip⟩
  · exact dispatch_panic_oob o c cc (c.mem c.ip) i hm hr hd

/-- Claim C8 (counterexample): a reachable execution state accesses memory at index 32768.  The program `[16, 32767, 19, 6, 32767]` writes opcode 19 (`out`) to address 32767, jumps there, and the operand read at `ip + 1 = 32768` is out of bounds — refuting the claim that every access stays below 32768. -/
theorem c8_counterexample_oob_access :
    run (fun _ => false) 3 (initConfig [16, 32767, 19, 6, 32767] []) =
      .crashed (.indexOOB 32768) [] := by decide

/-- Claim C8 (witness): the amended bound evaluated on a configuration about to fetch from address 40000. -/
theorem c8_access_witness :
    step false { initConfig [] [] with ip := 40000 } =
      .panic (.rt (.indexOOB 40000)) { initConfig [] [] with ip := 40000 } ∧
    msize ≤ 40000 ∧ 40000 < wsize :=
  ⟨rfl,
   c8_access_bounds false { initConfig [] [] with ip := 40000 } _ 40000
     (fun k => memOfList_lt wsize (by decide) [] k (by decide))
     (fun j => by simp [initConfig, wsize])
     (by decide) rfl⟩

end SynacorVM
